import Mathlib

/-!
# Verification of the steel-plant dashboard data pipeline

Shallow embedding of `src/dashboard.py` (loader + filter engine) and proofs
about it.  Machine floats are modelled as exact rationals (`ℚ`): every
numeral the coordinate regex accepts denotes an exact decimal value.
Spreadsheet cells are modelled by the inductive `Cell`: `num q` is a cell
whose content coerces to the number `q` under `pd.to_numeric` (this covers
both numeric cells and numeric strings), `text s` is a cell whose textual
content `s` does not coerce to a number, and `blank` is a missing value
(NaN/None).  Pandas `NaN` results are modelled by `Option ℚ = none`.
-/

namespace Dashboard

/-- ASCII whitespace, the characters matched by the regex class `\s`
(restricted to the ASCII fragment of the Unicode class). -/
def isWS (c : Char) : Bool :=
  c == ' ' || c == '\t' || c == '\n' || c == '\r' ||
  c == Char.ofNat 11 || c == Char.ofNat 12

/-- Decimal digit, the characters matched by `\d` (ASCII fragment). -/
def isDigit (c : Char) : Bool :=
  '0' ≤ c && c ≤ '9'

/-- Drop a maximal leading run of whitespace (the greedy `\s*`). -/
def skipWS : List Char → List Char
  | [] => []
  | c :: cs => if isWS c then skipWS cs else c :: cs

/-- Split off a maximal leading run of digits (the greedy `\d+` body). -/
def takeDigits : List Char → List Char × List Char
  | [] => ([], [])
  | c :: cs =>
    if isDigit c then
      let p := takeDigits cs
      (c :: p.1, p.2)
    else ([], c :: cs)

/-- Numeric value of a decimal digit character. -/
def digitVal (c : Char) : ℕ := c.toNat - '0'.toNat

/-- Value of a digit string read left to right in base 10. -/
def digitsToNatAux (acc : ℕ) : List Char → ℕ
  | [] => acc
  | c :: cs => digitsToNatAux (10 * acc + digitVal c) cs

/-- Value of a decimal digit string. -/
def digitsToNat (ds : List Char) : ℕ := digitsToNatAux 0 ds

/-- Does `s` start with `p` (character-list version)? -/
def listStartsWith : List Char → List Char → Bool
  | _, [] => true
  | [], _ :: _ => false
  | a :: s, b :: p => a == b && listStartsWith s p

/-- Does `s` contain `p` as a contiguous run (character-list version)?
Models the Python `in` test on strings. -/
def listContains : List Char → List Char → Bool
  | [], p => listStartsWith [] p
  | s@(_ :: s'), p => listStartsWith s p || listContains s' p

/-- ASCII lower-casing of one character, as Python `str.lower` acts on the
ASCII range. -/
def lowerChar (c : Char) : Char :=
  if 'A' ≤ c && c ≤ 'Z' then Char.ofNat (c.toNat + 32) else c

/-- Lower-cased string, modelling Python `str.lower()`. -/
def strLower (s : String) : String := ⟨s.data.map lowerChar⟩

/-- Python `str.strip()`: remove leading and trailing whitespace.  Models
`df.columns.str.strip()`. -/
def strStrip (s : String) : String := ⟨(skipWS ((skipWS s.data).reverse)).reverse⟩

/-- Case-insensitive containment: does the lowercased `s` contain the
lowercased `key`?  This is `k in str(c).lower()` from `pick`. -/
def lowerContains (s key : String) : Bool :=
  listContains (strLower s).data (strLower key).data

/-- Does `s` end with `p`? -/
def listEndsWith (s p : List Char) : Bool :=
  listStartsWith s.reverse p.reverse

/-- Case-insensitive suffix test: `str(c).lower().endswith(suf)` from the
capacity-column scan. -/
def lowerEndsWith (s suf : String) : Bool :=
  listEndsWith (strLower s).data suf.data

/-!
## Coordinate parser

`parse_coordinates` matches each value against the anchored regex

    ^\s*(-?\d+(?:\.\d+)?)\s*,\s*(-?\d+(?:\.\d+)?)\s*$

and converts the two captured numerals with `float`.  `parseNumber` is a
deterministic parser for the capture group `-?\d+(?:\.\d+)?`; as in the
regex, a `.` not followed by a digit is left unconsumed (the optional
fractional group backtracks to the empty match). -/

/-- The optional fractional group `(?:\.\d+)?` after the integer part: a
`.` followed by at least one digit extends the value, anything else leaves
the value and the rest unchanged (the group matches empty). -/
def parseFrac (ip : ℚ) (rest : List Char) : ℚ × List Char :=
  match rest with
  | [] => (ip, rest)
  | c :: s3 =>
    if c == '.' then
      let p2 := takeDigits s3
      if p2.1.isEmpty then (ip, rest)
      else (ip + (digitsToNat p2.1 : ℚ) / (10 : ℚ) ^ p2.1.length, p2.2)
    else (ip, rest)

/-- The unsigned numeral `\d+(?:\.\d+)?`: at least one digit, then the
optional fractional group. -/
def parseUnsigned (s : List Char) : Option (ℚ × List Char) :=
  let p1 := takeDigits s
  if p1.1.isEmpty then none
  else
    let f := parseFrac (digitsToNat p1.1 : ℚ) p1.2
    some (f.1, f.2)

/-- The signed numeral `-?\d+(?:\.\d+)?`: parse one -- optionally
negated -- decimal numeral at the head of the input; return its exact
value and the unconsumed rest. -/
def parseNumber (s : List Char) : Option (ℚ × List Char) :=
  match s with
  | [] => none
  | c :: rest =>
    if c == '-' then
      match parseUnsigned rest with
      | none => none
      | some (v, t) => some (-v, t)
    else parseUnsigned (c :: rest)

/-- Match the whole anchored coordinate pattern against a character list. -/
def parseCoordList (s : List Char) : Option (ℚ × ℚ) :=
  match parseNumber (skipWS s) with
  | none => none
  | some (x, r1) =>
    match skipWS r1 with
    | [] => none
    | c :: r3 =>
      if c == ',' then
        match parseNumber (skipWS r3) with
        | none => none
        | some (y, r4) => if (skipWS r4).isEmpty then some (x, y) else none
      else none

/-- Model of `pat.match(v)` for one row value: the parsed `(lat, lon)` pair, or
`none` when the anchored pattern does not match. -/
def parseCoordStr (s : String) : Option (ℚ × ℚ) :=
  parseCoordList s.data

/-- The loop body of `parse_coordinates`: two parallel lists, one entry per
input row, `none` entries for rows whose text does not match. -/
def parse_coordinates : List String → List (Option ℚ) × List (Option ℚ)
  | [] => ([], [])
  | v :: vs =>
    let rest := parse_coordinates vs
    match parseCoordStr v with
    | some (a, b) => (some a :: rest.1, some b :: rest.2)
    | none => (none :: rest.1, none :: rest.2)

/-- The IEEE-754 double overflow threshold: a decimal value of magnitude
at least `2^1024 - 2^970` (the rounding midpoint just above `DBL_MAX`)
converts to an infinity under round-to-nearest-even; every smaller
magnitude converts to a finite double. -/
def dblOverflowThreshold : ℚ := ((2 ^ 1024 - 2 ^ 970 : ℕ) : ℚ)

/-- Model of the finiteness of Python `float()` applied to a matched
decimal numeral — the one aspect of the conversion that the exact-rational
model abstracts away.  `float()` of a matched numeral is never NaN; it is
finite exactly when the exact decimal value's magnitude is below the
overflow threshold, and an infinity otherwise (e.g. `float("1" + "0"*309)`
is `inf`). -/
def floatFinite (q : ℚ) : Bool := decide (|q| < dblOverflowThreshold)

/-!
## Column resolver
-/

/-- Model of `pick(cols, *keys)`: the first column whose lowercased name contains
any of the lowercased keys, else `none`. -/
def pick (cols : List String) (keys : List String) : Option String :=
  cols.find? (fun c => keys.any (fun k => lowerContains c k))

/-!
## Cells, sheets and the loader
-/

/-- A spreadsheet cell after reading: a numeric value, a non-numeric text,
or a missing value. -/
inductive Cell where
  | num (q : ℚ)
  | text (s : String)
  | blank
deriving DecidableEq

/-- Model of `pd.to_numeric(col, errors="coerce")` on one cell: numeric content
stays, everything else becomes NaN (`none`). -/
def toNumeric : Cell → Option ℚ
  | .num q => some q
  | .text _ => none
  | .blank => none

/-- Model of `astype(str)` on one cell.  A missing value prints as "nan"; a numeric
cell prints as a numeral (comma-free, so it can never match the coordinate
pattern, exactly like Python's float repr). -/
def astypeStr : Cell → String
  | .num q => toString q.num ++ "/" ++ toString q.den
  | .text s => s
  | .blank => "nan"

/-- Cell of a row at a named column (first occurrence), `blank` when the
column is unknown. -/
def getCell (cols : List String) (cells : List Cell) (c : String) : Cell :=
  match cols.findIdx? (fun c' => c' == c) with
  | some i => cells.getD i Cell.blank
  | none => Cell.blank

/-- One sheet of the workbook: column names and rows of cells (each row
aligned with the column list). -/
structure Sheet where
  cols : List String
  rows : List (List Cell)
deriving DecidableEq

/-- The loader's external environment: whether the source file exists,
the workbook's sheet names, and the contents of the "Plant data" sheet. -/
structure Env where
  fileExists : Bool
  sheetNames : List String
  plantData : Sheet
deriving DecidableEq

/-- The sheet name the loader reads. -/
def sheetName : String := "Plant data"

/-- The three fatal loader errors of `load_data`. -/
inductive LoadError where
  | fileNotFound (msg : String)
  | sheetNotFound (sheet : String) (available : List String)
  | requiredColumnMissing (msg : String)
deriving DecidableEq

/-- A row of the loaded table: the original cells plus the derived
`Latitude`, `Longitude` and `TotalCapacity` fields. -/
structure LRow where
  cells : List Cell
  lat : ℚ
  lon : ℚ
  total : Option ℚ
deriving DecidableEq

/-- The loaded table together with the resolution metadata returned by
`load_data`. -/
structure Loaded where
  cols : List String
  rows : List LRow
  ownerCol : Option String
  regionCol : Option String
  capCols : List String
deriving DecidableEq

/-- Model of `Series.sum(axis=1, min_count=1)` over one row's coerced capacity
cells: the sum of the present values, NaN when none is present. -/
def sumMinCount1 (xs : List (Option ℚ)) : Option ℚ :=
  let p := xs.filterMap id
  if p.isEmpty then none else some p.sum

/-- The coerced capacity cells of one row, in capacity-column order. -/
def capVals (cols capCols : List String) (cells : List Cell) : List (Option ℚ) :=
  capCols.map (fun c => toNumeric (getCell cols cells c))

/-- The derived `TotalCapacity` of one row. -/
def totalOfRow (cols capCols : List String) (cells : List Cell) : Option ℚ :=
  if capCols.isEmpty then none else sumMinCount1 (capVals cols capCols cells)

/-- Model of `load_data()`: checks the file and the sheet, strips column names,
resolves the coordinate column, parses coordinates and drops rows where
parsing failed, resolves owner / region columns, collects the capacity
columns and derives `TotalCapacity`. -/
def load_data (env : Env) : Except LoadError Loaded :=
  if env.fileExists = false then
    .error (.fileNotFound "'dataset_globalsteeltracker.xlsx' not found in this folder.")
  else if sheetName ∉ env.sheetNames then
    .error (.sheetNotFound sheetName env.sheetNames)
  else
    let cols := env.plantData.cols.map strStrip
    match pick cols ["coordinates"] with
    | none => .error (.requiredColumnMissing "Column 'Coordinates' was not found in the 'Plant data' sheet.")
    | some coordCol =>
      let colsAll := cols ++ ["Latitude", "Longitude"]
      let ownerCol := pick colsAll ["owner"]
      let regionCol := match pick colsAll ["country/area"] with
        | some c => some c
        | none => pick colsAll ["country", "region"]
      let capCols := colsAll.filter (fun c => lowerEndsWith c "capacity (ttpa)")
      let keptRows := env.plantData.rows.filterMap (fun r =>
        match parseCoordStr (astypeStr (getCell cols r coordCol)) with
        | some (la, lo) => some (⟨r, la, lo, totalOfRow cols capCols r⟩ : LRow)
        | none => none)
      .ok ⟨colsAll, keptRows, ownerCol, regionCol, capCols⟩

/-!
## Filter engine

Module-level filter application (lines 113-119 of the source):

    f = df.copy()
    if sel_owners and owner_col:
        f = f[f[owner_col].astype(str).isin(sel_owners)]
    if sel_regions and region_col:
        f = f[f[region_col].astype(str).isin(sel_regions)]
    if cap_range and f["TotalCapacity"].notna().any():
        f = f[f["TotalCapacity"].between(cap_range[0], cap_range[1])]

A `None` selection is modelled by `none`, a selected list by `some sel`
(the Python truthiness test makes an empty list behave like `None`). -/

/-- The row test of one categorical stage: true when the stage is inactive
(`None` selection, empty selection, or unresolved column), else the
`astype(str).isin(sel)` membership test. -/
def catPass (cols : List String) (col : Option String)
    (sel : Option (List String)) (r : LRow) : Bool :=
  match sel, col with
  | some s, some c =>
    if s.isEmpty then true
    else s.contains (astypeStr (getCell cols r.cells c))
  | _, _ => true

/-- One categorical filter stage (owner or region). -/
def catStage (cols : List String) (col : Option String)
    (sel : Option (List String)) (rows : List LRow) : List LRow :=
  match sel, col with
  | some s, some c =>
    if s.isEmpty then rows
    else rows.filter (fun r => s.contains (astypeStr (getCell cols r.cells c)))
  | _, _ => rows

/-- The row test of `Series.between(lo, hi)`: inclusive on both bounds,
false on an absent (NaN) value. -/
def capPass (lo hi : ℤ) (r : LRow) : Bool :=
  match r.total with
  | some q => decide ((lo : ℚ) ≤ q) && decide (q ≤ (hi : ℚ))
  | none => false

/-- Model of `f["TotalCapacity"].notna().any()`. -/
def hasPresent (rows : List LRow) : Bool :=
  rows.any (fun r => r.total.isSome)

/-- The capacity-range stage.  `between` is inclusive on both bounds and is
false on NaN, so a row with absent `TotalCapacity` fails the test; the
whole stage is skipped when no surviving row has a present value. -/
def capStage (capRange : Option (ℤ × ℤ)) (rows : List LRow) : List LRow :=
  match capRange with
  | none => rows
  | some (lo, hi) =>
    if hasPresent rows then rows.filter (capPass lo hi) else rows

/-- The whole filter application, in source order: owner, region, capacity. -/
def applyFilters (cols : List String) (oc rc : Option String)
    (so sr : Option (List String)) (cr : Option (ℤ × ℤ))
    (rows : List LRow) : List LRow :=
  capStage cr (catStage cols rc sr (catStage cols oc so rows))

/-- Python `int()`: truncation of a rational toward zero. -/
def pyInt (q : ℚ) : ℤ := Int.tdiv q.num (q.den : ℤ)

/-- The slider bounds (lines 101-110): when some row has a present
`TotalCapacity`, the pair `(int(min), int(max))` over the present values,
else no capacity filter is offered. -/
def sliderRange (rows : List LRow) : Option (ℤ × ℤ) :=
  match rows.filterMap (fun r => r.total) with
  | [] => none
  | v :: vs => some (pyInt (vs.foldl min v), pyInt (vs.foldl max v))

/-!
## Specification-side shape predicates
-/

/-- Everything in the list is whitespace. -/
def AllWS (w : List Char) : Prop := ∀ c ∈ w, isWS c = true

/-- Everything in the list is a decimal digit. -/
def AllDigits (d : List Char) : Prop := ∀ c ∈ d, isDigit c = true

/-- Nothing the greedy `\d+` would keep consuming: the list is empty or
starts with a non-digit. -/
def NoDigitHead : List Char → Prop
  | [] => True
  | c :: _ => isDigit c = false

/-- What may legally follow a numeral inside the coordinate pattern: the
end of input, or a character that is neither a digit nor a dot (so the
greedy numeral ends exactly here). -/
def NumBoundary : List Char → Prop
  | [] => True
  | c :: _ => isDigit c = false ∧ c ≠ '.'

/-- Well-formedness of the two digit blocks of a numeral: a non-empty
integer block and an absent or non-empty fraction block. -/
def GoodNum (ds fs : List Char) : Prop :=
  AllDigits ds ∧ ds ≠ [] ∧ (fs = [] ∨ (AllDigits fs ∧ fs ≠ []))

/-- The characters of the optional fractional part: empty, or a dot
followed by the fraction digits. -/
def fracChars (fs : List Char) : List Char :=
  if fs.isEmpty then [] else '.' :: fs

/-- Exact value of the unsigned numeral with integer digits `ds` and
fraction digits `fs`. -/
def unsignedVal (ds fs : List Char) : ℚ :=
  if fs.isEmpty then (digitsToNat ds : ℚ)
  else (digitsToNat ds : ℚ) + (digitsToNat fs : ℚ) / (10 : ℚ) ^ fs.length

/-- The characters of a signed numeral `-?\d+(?:\.\d+)?`. -/
def numeralChars (neg : Bool) (ds fs : List Char) : List Char :=
  (if neg then ['-'] else []) ++ (ds ++ fracChars fs)

/-- Exact value of a signed numeral. -/
def numeralVal (neg : Bool) (ds fs : List Char) : ℚ :=
  if neg then -unsignedVal ds fs else unsignedVal ds fs

/-- The shape required by the anchored regex
`^\s*(-?\d+(?:\.\d+)?)\s*,\s*(-?\d+(?:\.\d+)?)\s*$`: optional surrounding
whitespace, a signed decimal numeral of value `x`, optional whitespace, a
comma, optional whitespace, a signed decimal numeral of value `y`, optional
trailing whitespace — and nothing else. -/
def CoordShape (s : List Char) (x y : ℚ) : Prop :=
  ∃ w1 w2 w3 w4 neg1 ds1 fs1 neg2 ds2 fs2,
    AllWS w1 ∧ AllWS w2 ∧ AllWS w3 ∧ AllWS w4 ∧
    GoodNum ds1 fs1 ∧ GoodNum ds2 fs2 ∧
    s = w1 ++ numeralChars neg1 ds1 fs1 ++ w2 ++ ',' ::
        (w3 ++ numeralChars neg2 ds2 fs2 ++ w4) ∧
    x = numeralVal neg1 ds1 fs1 ∧ y = numeralVal neg2 ds2 fs2

/-- A column name matches a key list when its lowercased form contains some
lowercased key as a contiguous substring. -/
def MatchesAny (keys : List String) (c : String) : Prop :=
  ∃ k ∈ keys, ∃ l1 l2, (strLower c).data = l1 ++ (strLower k).data ++ l2

/-- The present (non-NaN) coerced capacity values of one row. -/
def presentCapVals (cols capCols : List String) (cells : List Cell) : List ℚ :=
  (capVals cols capCols cells).filterMap id

/-- Modelled from the spec's words (the claimed reference semantics of the
filter engine, spec sections 4.5 and 8): the subset of input rows
satisfying all active predicates, where a row with absent `TotalCapacity`
passes the capacity test unconditionally.  Used only to compare against the
behaviour of `applyFilters`. -/
def specFilterRef (cols : List String) (oc rc : Option String)
    (so sr : Option (List String)) (cr : Option (ℤ × ℤ))
    (rows : List LRow) : List LRow :=
  rows.filter (fun r => catPass cols oc so r && catPass cols rc sr r &&
    (match cr, r.total with
     | some (lo, hi), some q => decide ((lo : ℚ) ≤ q) && decide (q ≤ (hi : ℚ))
     | _, _ => true))

/-!
## Concrete instances used by witnesses and counterexamples
-/

/-- A workbook whose sheet has one valid-coordinate row, one genuine
capacity column and one column that merely contains (but does not end
with) "capacity (ttpa)". -/
def envC3 : Env :=
  ⟨true, ["Plant data"],
   ⟨["Coordinates", "Crude steel capacity (TTPA)", "Capacity (ttpa) note"],
    [[.text "1.5, 2", .num 100, .num 7]]⟩⟩

/-- The loader output on `envC3`. -/
def loadedC3 : Loaded :=
  ⟨["Coordinates", "Crude steel capacity (TTPA)", "Capacity (ttpa) note",
    "Latitude", "Longitude"],
   [⟨[.text "1.5, 2", .num 100, .num 7], 3/2, 2, some 100⟩],
   none, none, ["Crude steel capacity (TTPA)"]⟩

/-- A workbook missing the "Plant data" sheet. -/
def envC5 : Env :=
  ⟨true, ["Other sheet"], ⟨["Coordinates"], [[.text "1, 2"]]⟩⟩

/-- A workbook with an owner column, one parsable coordinate row and one
unparsable one, and no capacity columns. -/
def envC6 : Env :=
  ⟨true, ["Plant data"],
   ⟨["Coordinates", "Owner"],
    [[.text " -12 , 7.25 ", .text "A"], [.text "xx", .text "B"]]⟩⟩

/-- The loader output on `envC6`: the unparsable row is dropped. -/
def loadedC6 : Loaded :=
  ⟨["Coordinates", "Owner", "Latitude", "Longitude"],
   [⟨[.text " -12 , 7.25 ", .text "A"], -12, 29/4, none⟩],
   some "Owner", none, []⟩

/-- A coordinate text whose latitude numeral has 310 digits: the anchored
pattern matches it, and its exact value `10^309` is far above the double
overflow threshold, so Python `float()` of the captured group is `inf`. -/
def hugeCoord : String := ⟨'1' :: (List.replicate 309 '0' ++ (", 0").data)⟩

/-- A workbook whose only row carries the overlong coordinate numeral. -/
def envC6inf : Env :=
  ⟨true, ["Plant data"], ⟨["Coordinates"], [[.text hugeCoord]]⟩⟩

/-- A workbook with one capacity column whose only cell is non-numeric. -/
def envC8 : Env :=
  ⟨true, ["Plant data"],
   ⟨["Coordinates", "Steel capacity (ttpa)"], [[.text "1, 2", .text "n/a"]]⟩⟩

/-- The loader output on `envC8`: capacity columns resolved, yet the row's
`TotalCapacity` is absent because its only capacity cell fails numeric
coercion. -/
def loadedC8 : Loaded :=
  ⟨["Coordinates", "Steel capacity (ttpa)", "Latitude", "Longitude"],
   [⟨[.text "1, 2", .text "n/a"], 1, 2, none⟩],
   none, none, ["Steel capacity (ttpa)"]⟩

/-- One row whose `TotalCapacity` is `10.5`, so the slider bounds truncate
to `(10, 10)`. -/
def rowsC10 : List LRow := [⟨[], 0, 0, some (21/2 : ℚ)⟩]

/-!
## Basic lemmas on the character-level helpers
-/


theorem skipWS_cons_ws {c : Char} {s : List Char} (h : isWS c = true) :
    skipWS (c :: s) = skipWS s := by
  simp [skipWS, h]

theorem skipWS_cons_not {c : Char} {s : List Char} (h : isWS c = false) :
    skipWS (c :: s) = c :: s := by
  simp [skipWS, h]

theorem skipWS_append_ws {w : List Char} (t : List Char) (h : AllWS w) :
    skipWS (w ++ t) = skipWS t := by
  induction w with
  | nil => rfl
  | cons c w ih =>
    have hc : isWS c = true := h c (List.mem_cons_self ..)
    have hw : AllWS w := fun x hx => h x (List.mem_cons_of_mem _ hx)
    simpa [skipWS_cons_ws hc] using ih hw

theorem skipWS_decomp (s : List Char) : ∃ w, AllWS w ∧ s = w ++ skipWS s := by
  induction s with
  | nil => exact ⟨[], fun c h => absurd h (List.not_mem_nil c), rfl⟩
  | cons c s ih =>
    by_cases hc : isWS c = true
    · obtain ⟨w, hw, hs⟩ := ih
      refine ⟨c :: w, ?_, ?_⟩
      · intro x hx
        rcases List.mem_cons.mp hx with h | h
        · exact h ▸ hc
        · exact hw x h
      · rw [skipWS_cons_ws hc, List.cons_append]
        exact congrArg (c :: ·) hs
    · refine ⟨[], fun x hx => absurd hx (List.not_mem_nil x), ?_⟩
      rw [skipWS_cons_not (Bool.eq_false_iff.mpr hc)]
      rfl

theorem skipWS_head {s t : List Char} {c : Char} (h : skipWS s = c :: t) :
    isWS c = false := by
  induction s with
  | nil => exact List.noConfusion h
  | cons a s ih =>
    by_cases ha : isWS a = true
    · rw [skipWS_cons_ws ha] at h; exact ih h
    · have ha' : isWS a = false := Bool.eq_false_iff.mpr ha
      rw [skipWS_cons_not ha'] at h
      cases h
      exact ha'

theorem takeDigits_decomp (s : List Char) :
    s = (takeDigits s).1 ++ (takeDigits s).2 ∧ AllDigits (takeDigits s).1 := by
  induction s with
  | nil => exact ⟨rfl, fun c h => absurd h (List.not_mem_nil c)⟩
  | cons c s ih =>
    by_cases hc : isDigit c = true
    · constructor
      · simpa [takeDigits, hc] using congrArg (c :: ·) ih.1
      · intro x hx
        simp only [takeDigits, hc, if_true] at hx
        rcases List.mem_cons.mp hx with h | h
        · exact h ▸ hc
        · exact ih.2 x h
    · have hc' : isDigit c = false := Bool.eq_false_iff.mpr hc
      exact ⟨by simp [takeDigits, hc'], by simp [takeDigits, hc', AllDigits]⟩

theorem takeDigits_head {s t : List Char} {c : Char}
    (h : (takeDigits s).2 = c :: t) : isDigit c = false := by
  induction s with
  | nil => simp [takeDigits] at h
  | cons a s ih =>
    by_cases ha : isDigit a = true
    · simp only [takeDigits, ha, if_true] at h; exact ih h
    · have ha' : isDigit a = false := Bool.eq_false_iff.mpr ha
      rw [show takeDigits (a :: s) = ([], a :: s) by simp [takeDigits, ha']] at h
      cases h
      exact ha'


theorem takeDigits_append {d : List Char} (t : List Char) (hd : AllDigits d)
    (ht : NoDigitHead t) : takeDigits (d ++ t) = (d, t) := by
  induction d with
  | nil =>
    cases t with
    | nil => rfl
    | cons c t =>
      have ht' : isDigit c = false := ht
      simp [takeDigits, ht']
  | cons c d ih =>
    have hc : isDigit c = true := hd c (List.mem_cons_self ..)
    have hd' : AllDigits d := fun x hx => hd x (List.mem_cons_of_mem _ hx)
    simp [takeDigits, hc, ih hd']

theorem listStartsWith_iff (s p : List Char) :
    listStartsWith s p = true ↔ ∃ t, s = p ++ t := by
  induction p generalizing s with
  | nil => simp [listStartsWith]
  | cons b p ih =>
    cases s with
    | nil => simp [listStartsWith]
    | cons a s =>
      simp only [listStartsWith, Bool.and_eq_true, beq_iff_eq, ih]
      constructor
      · rintro ⟨rfl, t, rfl⟩; exact ⟨t, rfl⟩
      · rintro ⟨t, h⟩
        rw [List.cons_append] at h
        cases h
        exact ⟨rfl, t, rfl⟩

theorem listContains_iff (s p : List Char) :
    listContains s p = true ↔ ∃ l1 l2, s = l1 ++ p ++ l2 := by
  induction s with
  | nil =>
    simp only [listContains, listStartsWith_iff]
    constructor
    · rintro ⟨t, h⟩
      exact ⟨[], t, by simpa using h⟩
    · rintro ⟨l1, l2, h⟩
      have h' : l1 = [] ∧ p = [] ∧ l2 = [] := by simpa using h.symm
      exact ⟨[], by simp [h'.2.1]⟩
  | cons a s ih =>
    simp only [listContains, Bool.or_eq_true, listStartsWith_iff, ih]
    constructor
    · rintro (⟨t, h⟩ | ⟨l1, l2, h⟩)
      · exact ⟨[], t, by simpa using h⟩
      · exact ⟨a :: l1, l2, by simp [h]⟩
    · rintro ⟨l1, l2, h⟩
      cases l1 with
      | nil => exact Or.inl ⟨l2, by simpa using h⟩
      | cons b l1 =>
        rw [List.cons_append, List.cons_append] at h
        cases h
        exact Or.inr ⟨l1, l2, rfl⟩

theorem isWS_cases {c : Char} (h : isWS c = true) :
    c = ' ' ∨ c = '\t' ∨ c = '\n' ∨ c = '\r' ∨ c = Char.ofNat 11 ∨ c = Char.ofNat 12 := by
  simpa [isWS, Bool.or_eq_true, beq_iff_eq, or_assoc] using h

theorem ws_not_digit {c : Char} (h : isWS c = true) : isDigit c = false := by
  rcases isWS_cases h with rfl | rfl | rfl | rfl | rfl | rfl <;> decide

theorem ws_ne_dot {c : Char} (h : isWS c = true) : c ≠ '.' := by
  rcases isWS_cases h with rfl | rfl | rfl | rfl | rfl | rfl <;> decide

theorem digit_not_ws {c : Char} (h : isDigit c = true) : isWS c = false := by
  cases hw : isWS c with
  | false => rfl
  | true =>
    rw [ws_not_digit hw] at h
    exact Bool.noConfusion h

theorem digit_ne_minus {c : Char} (h : isDigit c = true) : c ≠ '-' := by
  rintro rfl; simp [isDigit] at h

theorem digit_ne_dot {c : Char} (h : isDigit c = true) : c ≠ '.' := by
  rintro rfl; simp [isDigit] at h

/-!
## Characterization of the coordinate parser
-/







theorem parseFrac_boundary (ip : ℚ) {t : List Char} (ht : NumBoundary t) :
    parseFrac ip t = (ip, t) := by
  cases t with
  | nil => rfl
  | cons c s3 =>
    have hc : (c == '.') = false := beq_eq_false_iff_ne.mpr ht.2
    simp [parseFrac, hc]

theorem parseFrac_dot (ip : ℚ) {fs : List Char} (t : List Char)
    (hfs : AllDigits fs) (hne : fs ≠ []) (ht : NoDigitHead t) :
    parseFrac ip ('.' :: (fs ++ t)) =
      (ip + (digitsToNat fs : ℚ) / (10 : ℚ) ^ fs.length, t) := by
  simp [parseFrac, takeDigits_append t hfs ht, List.isEmpty_iff, hne]

theorem numBoundary_noDigitHead {t : List Char} (h : NumBoundary t) :
    NoDigitHead t := by
  cases t with
  | nil => trivial
  | cons c s => exact h.1

theorem parseUnsigned_complete {ds fs : List Char} (t : List Char)
    (hg : GoodNum ds fs) (ht : NumBoundary t) :
    parseUnsigned (ds ++ fracChars fs ++ t) = some (unsignedVal ds fs, t) := by
  obtain ⟨hds, hdne, hfs⟩ := hg
  rcases hfs with rfl | ⟨hfsd, hfne⟩
  · rw [show ds ++ fracChars [] ++ t = ds ++ t by simp [fracChars]]
    have h1 : takeDigits (ds ++ t) = (ds, t) :=
      takeDigits_append t hds (numBoundary_noDigitHead ht)
    simp [parseUnsigned, h1, List.isEmpty_iff, hdne, parseFrac_boundary _ ht,
      unsignedVal]
  · have hfrac : fracChars fs = '.' :: fs := by
      simp [fracChars, List.isEmpty_iff, hfne]
    rw [show ds ++ fracChars fs ++ t = ds ++ '.' :: (fs ++ t) by
      simp [hfrac]]
    have h1 : takeDigits (ds ++ '.' :: (fs ++ t)) = (ds, '.' :: (fs ++ t)) :=
      takeDigits_append _ hds (show isDigit '.' = false by decide)
    simp [parseUnsigned, h1, List.isEmpty_iff, hdne,
      parseFrac_dot _ t hfsd hfne (numBoundary_noDigitHead ht), unsignedVal, hfne]

theorem parseUnsigned_sound {s t : List Char} {v : ℚ}
    (h : parseUnsigned s = some (v, t)) :
    ∃ ds fs, GoodNum ds fs ∧ s = ds ++ fracChars fs ++ t ∧ v = unsignedVal ds fs := by
  obtain ⟨hsd, hall⟩ := takeDigits_decomp s
  rcases htd : takeDigits s with ⟨d, r⟩
  rw [htd] at hsd hall
  simp only [parseUnsigned, htd] at h
  by_cases he : d.isEmpty = true
  · rw [if_pos he] at h
    exact absurd h (by simp)
  · have hdne : d ≠ [] := by simpa [List.isEmpty_iff] using he
    rw [if_neg he] at h
    injection h with h2
    have hv : (parseFrac ((digitsToNat d : ℚ)) r).1 = v := congrArg Prod.fst h2
    have ht2 : (parseFrac ((digitsToNat d : ℚ)) r).2 = t := congrArg Prod.snd h2
    rcases r with _ | ⟨c, s3⟩
    · simp only [parseFrac] at hv ht2
      exact ⟨d, [], ⟨hall, hdne, Or.inl rfl⟩,
        by simp [fracChars, ← ht2, hsd], by simp [unsignedVal, ← hv]⟩
    · by_cases hc : c = '.'
      · subst hc
        obtain ⟨hs3, hall3⟩ := takeDigits_decomp s3
        rcases htd3 : takeDigits s3 with ⟨f, r3⟩
        rw [htd3] at hs3 hall3
        simp only [parseFrac, beq_self_eq_true, if_true, htd3] at hv ht2
        by_cases hfe : f.isEmpty = true
        · rw [if_pos hfe] at hv ht2
          exact ⟨d, [], ⟨hall, hdne, Or.inl rfl⟩,
            by simp [fracChars, ← ht2, hsd], by simp [unsignedVal, ← hv]⟩
        · have hfne : f ≠ [] := by simpa [List.isEmpty_iff] using hfe
          rw [if_neg hfe] at hv ht2
          refine ⟨d, f, ⟨hall, hdne, Or.inr ⟨hall3, hfne⟩⟩, ?_, ?_⟩
          · rw [hsd, hs3, ← ht2]
            simp [fracChars, List.isEmpty_iff, hfne]
          · simp [unsignedVal, List.isEmpty_iff, hfne, ← hv]
      · have hcb : (c == '.') = false := beq_eq_false_iff_ne.mpr hc
        simp only [parseFrac, hcb, Bool.false_eq_true, if_false] at hv ht2
        exact ⟨d, [], ⟨hall, hdne, Or.inl rfl⟩,
          by simp [fracChars, ← ht2, hsd], by simp [unsignedVal, ← hv]⟩

theorem parseNumber_complete {neg : Bool} {ds fs : List Char} (t : List Char)
    (hg : GoodNum ds fs) (ht : NumBoundary t) :
    parseNumber (numeralChars neg ds fs ++ t) = some (numeralVal neg ds fs, t) := by
  cases neg with
  | true =>
    have hshape : numeralChars true ds fs ++ t = '-' :: (ds ++ fracChars fs ++ t) := by
      simp [numeralChars]
    rw [hshape]
    have hu := parseUnsigned_complete t hg ht
    rw [List.append_assoc] at hu
    simp [parseNumber, hu, numeralVal]
  | false =>
    rcases hds0 : ds with _ | ⟨d, ds'⟩
    · exact absurd hds0 hg.2.1
    have hd : isDigit d = true := hg.1 d (by rw [hds0]; exact List.mem_cons_self ..)
    have hdm : (d == '-') = false := beq_eq_false_iff_ne.mpr (digit_ne_minus hd)
    have hu := parseUnsigned_complete t hg ht
    rw [hds0] at hu
    have hshape : numeralChars false (d :: ds') fs ++ t = d :: (ds' ++ (fracChars fs ++ t)) := by
      simp [numeralChars]
    rw [hshape]
    have hu' : parseUnsigned (d :: (ds' ++ (fracChars fs ++ t))) =
        some (unsignedVal (d :: ds') fs, t) := by
      have hsh2 : (d :: ds') ++ fracChars fs ++ t = d :: (ds' ++ (fracChars fs ++ t)) := by
        simp
      rw [hsh2] at hu
      exact hu
    simp [parseNumber, hdm, hu', numeralVal]

theorem parseNumber_sound {s t : List Char} {x : ℚ}
    (h : parseNumber s = some (x, t)) :
    ∃ neg ds fs, GoodNum ds fs ∧ s = numeralChars neg ds fs ++ t ∧
      x = numeralVal neg ds fs := by
  cases s with
  | nil => exact absurd h (by simp [parseNumber])
  | cons c rest =>
    by_cases hc : c = '-'
    · subst hc
      simp only [parseNumber, beq_self_eq_true, if_true] at h
      rcases hu : parseUnsigned rest with _ | ⟨v, t'⟩
      · rw [hu] at h; exact absurd h (by simp)
      · rw [hu] at h
        obtain ⟨rfl, rfl⟩ : -v = x ∧ t' = t := by
          constructor <;> · cases h; rfl
        obtain ⟨ds, fs, hg, hrest, hv⟩ := parseUnsigned_sound hu
        exact ⟨true, ds, fs, hg, by simp [numeralChars, hrest],
          by simp [numeralVal, hv]⟩
    · have hcb : (c == '-') = false := beq_eq_false_iff_ne.mpr hc
      simp only [parseNumber, hcb, Bool.false_eq_true, if_false] at h
      obtain ⟨ds, fs, hg, hrest, hv⟩ := parseUnsigned_sound h
      exact ⟨false, ds, fs, hg, by simp [numeralChars, hrest], by simp [numeralVal, hv]⟩


theorem skipWS_numeral (neg : Bool) {ds fs : List Char} (u : List Char)
    (hg : GoodNum ds fs) :
    skipWS (numeralChars neg ds fs ++ u) = numeralChars neg ds fs ++ u := by
  cases neg with
  | true =>
    rw [show numeralChars true ds fs ++ u = '-' :: ((ds ++ fracChars fs) ++ u) by
      simp [numeralChars]]
    exact skipWS_cons_not (by decide)
  | false =>
    rcases hds0 : ds with _ | ⟨d, ds'⟩
    · exact absurd hds0 hg.2.1
    have hd : isDigit d = true := hg.1 d (by rw [hds0]; exact List.mem_cons_self ..)
    rw [show numeralChars false (d :: ds') fs ++ u =
        d :: ((ds' ++ fracChars fs) ++ u) by simp [numeralChars]]
    exact skipWS_cons_not (digit_not_ws hd)

theorem numBoundary_ws {w : List Char} (hw : AllWS w) : NumBoundary w := by
  cases w with
  | nil => trivial
  | cons c w =>
    have hc := hw c (List.mem_cons_self ..)
    exact ⟨ws_not_digit hc, ws_ne_dot hc⟩

theorem numBoundary_ws_comma {w : List Char} (R : List Char) (hw : AllWS w) :
    NumBoundary (w ++ ',' :: R) := by
  cases w with
  | nil => exact ⟨by decide, by decide⟩
  | cons c w =>
    have hc := hw c (List.mem_cons_self ..)
    exact ⟨ws_not_digit hc, ws_ne_dot hc⟩

theorem skipWS_allWS {w : List Char} (hw : AllWS w) : skipWS w = [] := by
  have h := skipWS_append_ws [] hw
  simpa using h

/-- The coordinate-pattern matcher succeeds exactly on strings of the
anchored shape, returning the two exact numeral values. -/
theorem parseCoordList_iff (s : List Char) (x y : ℚ) :
    parseCoordList s = some (x, y) ↔ CoordShape s x y := by
  constructor
  · intro h
    simp only [parseCoordList] at h
    rcases hp1 : parseNumber (skipWS s) with _ | ⟨x', r1⟩ <;> simp only [hp1] at h
    case none => exact absurd h (by simp)
    rcases hr2 : skipWS r1 with _ | ⟨c, r3⟩ <;> simp only [hr2] at h
    case nil => exact absurd h (by simp)
    by_cases hc : c = ','
    case neg =>
      rw [if_neg (by simpa using hc)] at h
      exact absurd h (by simp)
    subst hc
    rw [if_pos (by simp)] at h
    rcases hp2 : parseNumber (skipWS r3) with _ | ⟨y', r4⟩ <;> simp only [hp2] at h
    · exact absurd h (by simp)
    by_cases hE : (skipWS r4).isEmpty = true
    case neg =>
      rw [if_neg hE] at h
      exact absurd h (by simp)
    rw [if_pos hE] at h
    obtain ⟨rfl, rfl⟩ : x' = x ∧ y' = y := by
      constructor <;> · cases h; rfl
    obtain ⟨w1, hw1, hs1⟩ := skipWS_decomp s
    obtain ⟨neg1, ds1, fs1, hg1, hn1, hv1⟩ := parseNumber_sound hp1
    obtain ⟨w2, hw2, hs2⟩ := skipWS_decomp r1
    obtain ⟨w3, hw3, hs3⟩ := skipWS_decomp r3
    obtain ⟨neg2, ds2, fs2, hg2, hn2, hv2⟩ := parseNumber_sound hp2
    obtain ⟨w4, hw4, hs4⟩ := skipWS_decomp r4
    have hr4 : r4 = w4 := by
      rw [List.isEmpty_iff.mp hE, List.append_nil] at hs4
      exact hs4
    refine ⟨w1, w2, w3, w4, neg1, ds1, fs1, neg2, ds2, fs2,
      hw1, hw2, hw3, hw4, hg1, hg2, ?_, hv1, hv2⟩
    rw [hs1, hn1, hs2, hr2, hs3, hn2, hr4]
    simp
  · rintro ⟨w1, w2, w3, w4, neg1, ds1, fs1, neg2, ds2, fs2,
      hw1, hw2, hw3, hw4, hg1, hg2, hs, hx, hy⟩
    have h1 : skipWS s =
        numeralChars neg1 ds1 fs1 ++ (w2 ++ ',' ::
          (w3 ++ numeralChars neg2 ds2 fs2 ++ w4)) := by
      rw [hs]
      rw [show w1 ++ numeralChars neg1 ds1 fs1 ++ w2 ++ ',' ::
          (w3 ++ numeralChars neg2 ds2 fs2 ++ w4) =
          w1 ++ (numeralChars neg1 ds1 fs1 ++ (w2 ++ ',' ::
          (w3 ++ numeralChars neg2 ds2 fs2 ++ w4))) by simp]
      rw [skipWS_append_ws _ hw1]
      exact skipWS_numeral neg1 _ hg1
    have h2 := @parseNumber_complete neg1 ds1 fs1
      (w2 ++ ',' :: (w3 ++ numeralChars neg2 ds2 fs2 ++ w4)) hg1
      (numBoundary_ws_comma _ hw2)
    have h3 : skipWS (w2 ++ ',' :: (w3 ++ numeralChars neg2 ds2 fs2 ++ w4)) =
        ',' :: (w3 ++ numeralChars neg2 ds2 fs2 ++ w4) := by
      rw [skipWS_append_ws _ hw2]
      exact skipWS_cons_not (by decide)
    have h4 : skipWS (w3 ++ numeralChars neg2 ds2 fs2 ++ w4) =
        numeralChars neg2 ds2 fs2 ++ w4 := by
      rw [show w3 ++ numeralChars neg2 ds2 fs2 ++ w4 =
          w3 ++ (numeralChars neg2 ds2 fs2 ++ w4) by simp]
      rw [skipWS_append_ws _ hw3]
      exact skipWS_numeral neg2 _ hg2
    have h5 := @parseNumber_complete neg2 ds2 fs2 w4 hg2 (numBoundary_ws hw4)
    simp only [parseCoordList, h1, h2, h3, beq_self_eq_true, if_true, h4, h5,
      skipWS_allWS hw4, List.isEmpty_nil, if_pos]
    rw [hx, hy]

/-- Row-position alignment: the first output sequence of
`parse_coordinates` is the per-row latitude parse. -/
theorem parse_coordinates_fst (rows : List String) :
    (parse_coordinates rows).1 =
      rows.map (fun v => (parseCoordStr v).map Prod.fst) := by
  induction rows with
  | nil => rfl
  | cons v vs ih =>
    simp only [parse_coordinates, List.map_cons]
    rcases hv : parseCoordStr v with _ | ⟨a, b⟩ <;> simp [hv, ih]

/-- Row-position alignment: the second output sequence of
`parse_coordinates` is the per-row longitude parse. -/
theorem parse_coordinates_snd (rows : List String) :
    (parse_coordinates rows).2 =
      rows.map (fun v => (parseCoordStr v).map Prod.snd) := by
  induction rows with
  | nil => rfl
  | cons v vs ih =>
    simp only [parse_coordinates, List.map_cons]
    rcases hv : parseCoordStr v with _ | ⟨a, b⟩ <;> simp [hv, ih]

/-!
## Characterization of the column resolver
-/


theorem matchesAny_iff (keys : List String) (c : String) :
    (keys.any (fun k => lowerContains c k)) = true ↔ MatchesAny keys c := by
  simp only [List.any_eq_true, lowerContains, listContains_iff, MatchesAny]

theorem pick_eq_some_iff (cols keys : List String) (c : String) :
    pick cols keys = some c ↔
      MatchesAny keys c ∧
        ∃ l1 l2, cols = l1 ++ c :: l2 ∧ ∀ x ∈ l1, ¬MatchesAny keys x := by
  simp only [pick, List.find?_eq_some, matchesAny_iff, Bool.not_eq_eq_eq_not,
    Bool.not_true]
  constructor
  · rintro ⟨hc, l1, l2, rfl, hnone⟩
    refine ⟨hc, l1, l2, rfl, fun x hx hm => ?_⟩
    have := hnone x hx
    rw [(matchesAny_iff keys x).mpr hm] at this
    exact Bool.noConfusion this
  · rintro ⟨hc, l1, l2, rfl, hnone⟩
    refine ⟨hc, l1, l2, rfl, fun x hx => ?_⟩
    have := hnone x hx
    rw [← matchesAny_iff keys x] at this
    exact Bool.eq_false_iff.mpr this

theorem pick_eq_none_iff (cols keys : List String) :
    pick cols keys = none ↔ ∀ c ∈ cols, ¬MatchesAny keys c := by
  simp only [pick, List.find?_eq_none, matchesAny_iff]

/-!
## Lemmas on the filter engine
-/

theorem catStage_eq_filter (cols : List String) (col : Option String)
    (sel : Option (List String)) (rows : List LRow) :
    catStage cols col sel rows = rows.filter (fun r => catPass cols col sel r) := by
  rcases sel with _ | s <;> rcases col with _ | c
  · simp [catStage, catPass]
  · simp [catStage, catPass]
  · simp [catStage, catPass]
  · by_cases he : s.isEmpty
    · simp [catStage, catPass, he]
    · simp [catStage, catPass, he]

theorem catStage_mem {cols : List String} {col : Option String}
    {sel : Option (List String)} {rows : List LRow} {r : LRow} :
    r ∈ catStage cols col sel rows ↔ r ∈ rows ∧ catPass cols col sel r = true := by
  rw [catStage_eq_filter]
  exact List.mem_filter

theorem capStage_mem {cr : Option (ℤ × ℤ)} {rows : List LRow} {r : LRow} :
    r ∈ capStage cr rows ↔ r ∈ rows ∧
      (∀ lo hi, cr = some (lo, hi) → hasPresent rows = true → capPass lo hi r = true) := by
  rcases cr with _ | ⟨lo, hi⟩
  · simp [capStage]
  · by_cases hp : hasPresent rows = true
    · simp [capStage, hp, List.mem_filter]
    · simp only [capStage, if_neg hp]
      constructor
      · intro h
        exact ⟨h, fun lo' hi' heq hp' => absurd hp' hp⟩
      · exact fun h => h.1

theorem filter_subset_self {α : Type} (p : α → Bool) (l : List α) {a : α}
    (h : a ∈ l.filter p) : a ∈ l :=
  (List.mem_filter.mp h).1

theorem catStage_sub {cols : List String} {col : Option String}
    {sel : Option (List String)} {rows : List LRow} {r : LRow}
    (h : r ∈ catStage cols col sel rows) : r ∈ rows :=
  (catStage_mem.mp h).1

theorem capStage_sub {cr : Option (ℤ × ℤ)} {rows : List LRow} {r : LRow}
    (h : r ∈ capStage cr rows) : r ∈ rows :=
  (capStage_mem.mp h).1

theorem catStage_of_all {cols : List String} {col : Option String}
    {sel : Option (List String)} {rows : List LRow}
    (h : ∀ r ∈ rows, catPass cols col sel r = true) :
    catStage cols col sel rows = rows := by
  rw [catStage_eq_filter]
  exact List.filter_eq_self.mpr h

/-- The capacity stage is idempotent. -/
theorem capStage_idem (cr : Option (ℤ × ℤ)) (rows : List LRow) :
    capStage cr (capStage cr rows) = capStage cr rows := by
  rcases cr with _ | ⟨lo, hi⟩
  · rfl
  · by_cases hp : hasPresent rows = true
    · simp only [capStage, if_pos hp]
      by_cases hp2 : hasPresent (rows.filter (capPass lo hi)) = true
      · rw [if_pos hp2]
        refine List.filter_eq_self.mpr fun r hr => (List.mem_filter.mp hr).2
      · rw [if_neg hp2]
    · simp only [capStage, if_neg hp]

/-- Membership in the filter output: a row survives exactly when it was in
the input, passes both categorical tests, and -- whenever the capacity
stage activates on the categorically filtered table -- passes the
inclusive `between` test (which no absent-capacity row does). -/
theorem applyFilters_mem (cols : List String) (oc rc : Option String)
    (so sr : Option (List String)) (cr : Option (ℤ × ℤ))
    (rows : List LRow) (r : LRow) :
    r ∈ applyFilters cols oc rc so sr cr rows ↔
      r ∈ rows ∧ catPass cols oc so r = true ∧ catPass cols rc sr r = true ∧
      (∀ lo hi, cr = some (lo, hi) →
        hasPresent (catStage cols rc sr (catStage cols oc so rows)) = true →
        capPass lo hi r = true) := by
  simp only [applyFilters, capStage_mem, catStage_mem]
  tauto

/-- The whole filter application is idempotent. -/
theorem applyFilters_idem (cols : List String) (oc rc : Option String)
    (so sr : Option (List String)) (cr : Option (ℤ × ℤ)) (rows : List LRow) :
    applyFilters cols oc rc so sr cr (applyFilters cols oc rc so sr cr rows) =
      applyFilters cols oc rc so sr cr rows := by
  simp only [applyFilters]
  have h1 : catStage cols oc so
      (capStage cr (catStage cols rc sr (catStage cols oc so rows))) =
      capStage cr (catStage cols rc sr (catStage cols oc so rows)) := by
    refine catStage_of_all fun r hr => ?_
    exact (catStage_mem.mp (catStage_sub (capStage_sub hr))).2
  rw [h1]
  have h2 : catStage cols rc sr
      (capStage cr (catStage cols rc sr (catStage cols oc so rows))) =
      capStage cr (catStage cols rc sr (catStage cols oc so rows)) := by
    refine catStage_of_all fun r hr => ?_
    exact (catStage_mem.mp (capStage_sub hr)).2
  rw [h2, capStage_idem]

/-- The two categorical stages commute. -/
theorem catStage_comm (cols : List String) (oc rc : Option String)
    (so sr : Option (List String)) (rows : List LRow) :
    catStage cols rc sr (catStage cols oc so rows) =
      catStage cols oc so (catStage cols rc sr rows) := by
  simp only [catStage_eq_filter, List.filter_filter]
  exact List.filter_congr fun r hr => Bool.and_comm _ _

/-!
## Lemmas on the loader
-/

/-- Unfolding of a successful load: the three fatal conditions are absent,
and every component of the result is as computed by the pipeline. -/
theorem load_data_ok_elim {env : Env} {L : Loaded} (h : load_data env = .ok L) :
    env.fileExists = true ∧ sheetName ∈ env.sheetNames ∧
    ∃ coordCol, pick (env.plantData.cols.map strStrip) ["coordinates"] = some coordCol ∧
      L.cols = env.plantData.cols.map strStrip ++ ["Latitude", "Longitude"] ∧
      L.ownerCol = pick L.cols ["owner"] ∧
      L.regionCol = (match pick L.cols ["country/area"] with
        | some c => some c
        | none => pick L.cols ["country", "region"]) ∧
      L.capCols = L.cols.filter (fun c => lowerEndsWith c "capacity (ttpa)") ∧
      L.rows = env.plantData.rows.filterMap (fun r =>
        match parseCoordStr (astypeStr (getCell (env.plantData.cols.map strStrip) r coordCol)) with
        | some (la, lo) =>
          some (⟨r, la, lo,
            totalOfRow (env.plantData.cols.map strStrip) L.capCols r⟩ : LRow)
        | none => none) := by
  simp only [load_data] at h
  by_cases hf : env.fileExists = false
  · rw [if_pos hf] at h
    exact absurd h (by simp)
  rw [if_neg hf] at h
  by_cases hs : sheetName ∉ env.sheetNames
  · rw [if_pos hs] at h
    exact absurd h (by simp)
  rw [if_neg hs] at h
  rcases hpick : pick (env.plantData.cols.map strStrip) ["coordinates"]
    with _ | c <;> simp only [hpick] at h
  · exact absurd h (by simp)
  · cases h
    exact ⟨by simpa using hf, by simpa using hs, c, rfl, rfl, rfl, rfl, rfl, rfl⟩

/-- A failed load happens exactly under one of the three fatal
conditions. -/
theorem load_data_error_iff (env : Env) :
    (∃ e, load_data env = .error e) ↔
      (env.fileExists = false ∨ sheetName ∉ env.sheetNames ∨
        pick (env.plantData.cols.map strStrip) ["coordinates"] = none) := by
  constructor
  · rintro ⟨e, he⟩
    by_contra hcon
    push_neg at hcon
    obtain ⟨h1, h2, h3⟩ := hcon
    simp only [load_data, if_neg h1,
      if_neg (show ¬sheetName ∉ env.sheetNames from not_not_intro h2)] at he
    rcases hpick : pick (env.plantData.cols.map strStrip) ["coordinates"]
      with _ | c <;> simp only [hpick] at he
    · exact h3 hpick
    · exact Except.noConfusion he
  · intro h
    rcases h1 : env.fileExists with _ | _
    · exact ⟨_, by simp only [load_data, if_pos h1]; rfl⟩
    · have h1' : ¬env.fileExists = false := by simp [h1]
      rcases h with hf | hs | hp
      · exact absurd hf h1'
      · exact ⟨_, by simp only [load_data, if_neg h1', if_pos hs]; rfl⟩
      · by_cases hs : sheetName ∉ env.sheetNames
        · exact ⟨_, by simp only [load_data, if_neg h1', if_pos hs]; rfl⟩
        · refine ⟨.requiredColumnMissing
            "Column 'Coordinates' was not found in the 'Plant data' sheet.", ?_⟩
          simp only [load_data, if_neg h1', if_neg hs, hp]

/-- The three error shapes of the loader. -/
theorem load_data_error_shapes (env : Env) :
    (env.fileExists = false →
      load_data env = .error (.fileNotFound
        "'dataset_globalsteeltracker.xlsx' not found in this folder.")) ∧
    (env.fileExists = true → sheetName ∉ env.sheetNames →
      load_data env = .error (.sheetNotFound sheetName env.sheetNames)) ∧
    (env.fileExists = true → sheetName ∈ env.sheetNames →
      pick (env.plantData.cols.map strStrip) ["coordinates"] = none →
      load_data env = .error (.requiredColumnMissing
        "Column 'Coordinates' was not found in the 'Plant data' sheet.")) := by
  refine ⟨fun hf => by simp only [load_data, if_pos hf], fun hf hs => ?_, fun hf hs hp => ?_⟩
  · have hf' : ¬env.fileExists = false := by simp [hf]
    simp only [load_data, if_neg hf', if_pos hs]
  · have hf' : ¬env.fileExists = false := by simp [hf]
    have hs' : ¬sheetName ∉ env.sheetNames := by simpa using hs
    simp only [load_data, if_neg hf', if_neg hs', hp]

/-!
## Lemmas on the slider bounds
-/

theorem foldl_min_le (v : ℚ) (vs : List ℚ) : ∀ q ∈ v :: vs, vs.foldl min v ≤ q := by
  induction vs generalizing v with
  | nil => intro q hq; simp at hq; simp [hq]
  | cons w vs ih =>
    intro q hq
    rcases List.mem_cons.mp hq with rfl | hq'
    · calc vs.foldl min (min q w) ≤ min q w := ih (min q w) _ (List.mem_cons_self ..)
        _ ≤ q := min_le_left ..
    · rcases List.mem_cons.mp hq' with rfl | hq''
      · calc vs.foldl min (min v q) ≤ min v q := ih (min v q) _ (List.mem_cons_self ..)
          _ ≤ q := min_le_right ..
      · exact ih (min v w) q (List.mem_cons_of_mem _ hq'')

theorem foldl_max_ge (v : ℚ) (vs : List ℚ) : ∀ q ∈ v :: vs, q ≤ vs.foldl max v := by
  induction vs generalizing v with
  | nil => intro q hq; simp at hq; simp [hq]
  | cons w vs ih =>
    intro q hq
    rcases List.mem_cons.mp hq with rfl | hq'
    · calc q ≤ max q w := le_max_left ..
        _ ≤ vs.foldl max (max q w) := ih (max q w) _ (List.mem_cons_self ..)
    · rcases List.mem_cons.mp hq' with rfl | hq''
      · calc q ≤ max v q := le_max_right ..
          _ ≤ vs.foldl max (max v q) := ih (max v q) _ (List.mem_cons_self ..)
      · exact ih (max v w) q (List.mem_cons_of_mem _ hq'')

theorem foldl_min_mem (v : ℚ) (vs : List ℚ) : vs.foldl min v ∈ v :: vs := by
  induction vs generalizing v with
  | nil => simp
  | cons w vs ih =>
    have h := ih (min v w)
    rcases List.mem_cons.mp h with hm | hm
    · rcases min_choice v w with hc | hc <;> rw [List.foldl_cons, hm, hc] <;> simp
    · simp only [List.foldl_cons]
      exact List.mem_cons_of_mem _ (List.mem_cons_of_mem _ hm)

theorem foldl_max_mem (v : ℚ) (vs : List ℚ) : vs.foldl max v ∈ v :: vs := by
  induction vs generalizing v with
  | nil => simp
  | cons w vs ih =>
    have h := ih (max v w)
    rcases List.mem_cons.mp h with hm | hm
    · rcases max_choice v w with hc | hc <;> rw [List.foldl_cons, hm, hc] <;> simp
    · simp only [List.foldl_cons]
      exact List.mem_cons_of_mem _ (List.mem_cons_of_mem _ hm)

/-- Unfolding of an offered slider range: the bounds are the truncations of
the minimum and maximum present `TotalCapacity` values. -/
theorem sliderRange_some_elim {rows : List LRow} {lo hi : ℤ}
    (h : sliderRange rows = some (lo, hi)) :
    ∃ qmin qmax,
      qmin ∈ rows.filterMap (fun r => r.total) ∧
      qmax ∈ rows.filterMap (fun r => r.total) ∧
      (∀ q ∈ rows.filterMap (fun r => r.total), qmin ≤ q ∧ q ≤ qmax) ∧
      lo = pyInt qmin ∧ hi = pyInt qmax := by
  simp only [sliderRange] at h
  rcases hp : rows.filterMap (fun r => r.total) with _ | ⟨v, vs⟩ <;>
    simp only [hp] at h
  · exact absurd h (by simp)
  · obtain ⟨rfl, rfl⟩ : lo = pyInt (vs.foldl min v) ∧ hi = pyInt (vs.foldl max v) := by
      constructor <;> · cases h; rfl
    rw [hp]
    exact ⟨vs.foldl min v, vs.foldl max v, foldl_min_mem v vs, foldl_max_mem v vs,
      fun q hq => ⟨foldl_min_le v vs q hq, foldl_max_ge v vs q hq⟩, rfl, rfl⟩

/-!
## Remaining helper lemmas
-/

theorem capPass_iff (lo hi : ℤ) (r : LRow) :
    capPass lo hi r = true ↔ ∃ q, r.total = some q ∧ (lo : ℚ) ≤ q ∧ q ≤ (hi : ℚ) := by
  rcases ht : r.total with _ | q <;> simp [capPass, ht]

theorem totalOfRow_eq (cols capCols : List String) (cells : List Cell) :
    totalOfRow cols capCols cells =
      if capCols = [] ∨ presentCapVals cols capCols cells = [] then none
      else some (presentCapVals cols capCols cells).sum := by
  by_cases h1 : capCols = [] <;>
    by_cases h2 : presentCapVals cols capCols cells = [] <;>
      simp [totalOfRow, sumMinCount1, presentCapVals, h1, h2, List.isEmpty_iff]

/-- Every loaded row comes from a source row whose coordinate text parsed
successfully, and carries exactly the parsed pair and the derived total. -/
theorem load_rows_elim {env : Env} {L : Loaded} (h : load_data env = .ok L) :
    ∃ coordCol, pick (env.plantData.cols.map strStrip) ["coordinates"] = some coordCol ∧
      ∀ r ∈ L.rows, ∃ r0 ∈ env.plantData.rows, ∃ la lo,
        parseCoordStr (astypeStr (getCell (env.plantData.cols.map strStrip) r0 coordCol)) =
          some (la, lo) ∧
        r = ⟨r0, la, lo, totalOfRow (env.plantData.cols.map strStrip) L.capCols r0⟩ := by
  obtain ⟨-, -, coordCol, hpick, -, -, -, -, hrows⟩ := load_data_ok_elim h
  refine ⟨coordCol, hpick, fun r hr => ?_⟩
  rw [hrows] at hr
  obtain ⟨r0, hr0, hf⟩ := List.mem_filterMap.mp hr
  rcases hp : parseCoordStr (astypeStr (getCell (env.plantData.cols.map strStrip) r0 coordCol))
    with _ | ⟨la, lo⟩ <;> simp only [hp] at hf
  · exact absurd hf (by simp)
  · cases hf
    exact ⟨r0, hr0, la, lo, hp, rfl⟩

theorem catStage_someEmpty (cols : List String) (col : Option String)
    (rows : List LRow) : catStage cols col (some []) rows = rows := by
  cases col <;> simp [catStage]

theorem catStage_none (cols : List String) (col : Option String)
    (rows : List LRow) : catStage cols col none rows = rows := by
  cases col <;> rfl

/-!
## Claim theorems
-/

/-- C1 counterexample: with an active capacity range `(0, 10)` the filter
engine drops the row whose `TotalCapacity` is absent, although the claim
says a row with absent capacity passes the capacity filter
unconditionally. -/
theorem C1_counterexample :
    capStage (some (0, 10)) [⟨[], 0, 0, some 5⟩, ⟨[], 0, 0, none⟩] =
      [⟨[], 0, 0, some 5⟩] ∧
    (⟨[], 0, 0, none⟩ : LRow) ∉
      capStage (some (0, 10)) [⟨[], 0, 0, some 5⟩, ⟨[], 0, 0, none⟩] := by
  constructor
  · with_unfolding_all decide
  · with_unfolding_all decide

/-- C1 (amended): the capacity test is inclusive on both bounds; whenever
the capacity stage is active (a range is set and at least one row of the
current table has a present `TotalCapacity`), a row survives it exactly
when its `TotalCapacity` is present and lies inside the closed interval —
in particular a row with absent `TotalCapacity` is excluded; when no row
has a present value the stage is skipped and every row passes. -/
theorem C1_capacity_filter (lo hi : ℤ) (rows : List LRow) (r : LRow) :
    r ∈ capStage (some (lo, hi)) rows ↔
      r ∈ rows ∧ (hasPresent rows = true →
        ∃ q, r.total = some q ∧ (lo : ℚ) ≤ q ∧ q ≤ (hi : ℚ)) := by
  rw [capStage_mem]
  refine and_congr_right fun _ => ?_
  constructor
  · intro h hp
    exact (capPass_iff lo hi r).mp (h lo hi rfl hp)
  · rintro h lo' hi' heq hp
    obtain ⟨rfl, rfl⟩ : lo' = lo ∧ hi' = hi := by
      constructor <;> · cases heq; rfl
    exact (capPass_iff _ _ r).mpr (h hp)

/-- C1 witness: at the concrete range `(0, 10)`, the row with value `5`
survives the active capacity stage. -/
theorem C1_witness :
    (⟨[], 0, 0, some 5⟩ : LRow) ∈
      capStage (some (0, 10)) [(⟨[], 0, 0, some 5⟩ : LRow)] :=
  (C1_capacity_filter 0 10 [⟨[], 0, 0, some 5⟩] ⟨[], 0, 0, some 5⟩).mpr
    ⟨by with_unfolding_all decide,
     fun _ => ⟨5, rfl, by with_unfolding_all decide, by with_unfolding_all decide⟩⟩

/-- C2: the coordinate parser returns a pair exactly on strings matching
the whole anchored pattern (optional surrounding whitespace, an optionally
negated decimal numeral, a comma with optional whitespace, a second such
numeral, nothing else), with the exact numeral values; on any other string
it returns absent for the row; and its two output sequences are aligned by
row position with the input.  (The parser is a total function, so it never
raises; 64-bit floats are modelled as exact rationals.) -/
theorem C2_coordinate_parsing :
    (∀ s x y, parseCoordStr s = some (x, y) ↔ CoordShape s.data x y) ∧
    (∀ s, parseCoordStr s = none ↔ ¬∃ x y, CoordShape s.data x y) ∧
    (∀ rows, (parse_coordinates rows).1 =
        rows.map (fun v => (parseCoordStr v).map Prod.fst) ∧
      (parse_coordinates rows).2 =
        rows.map (fun v => (parseCoordStr v).map Prod.snd)) := by
  refine ⟨fun s x y => parseCoordList_iff s.data x y, fun s => ?_,
    fun rows => ⟨parse_coordinates_fst rows, parse_coordinates_snd rows⟩⟩
  constructor
  · rintro h ⟨x, y, hshape⟩
    have heq : parseCoordStr s = some (x, y) :=
      (parseCoordList_iff s.data x y).mpr hshape
    rw [heq] at h
    exact Option.noConfusion h
  · intro h
    rcases hp : parseCoordStr s with _ | ⟨x, y⟩
    · rfl
    · exact absurd ⟨x, y, (parseCoordList_iff s.data x y).mp hp⟩ h

/-- C2 witness: the concrete string `"40.1, -83.2"` parses to the exact
pair `(40.1, -83.2)`, hence has the anchored shape. -/
theorem C2_witness : CoordShape ("40.1, -83.2").data (401/10) (-416/5) :=
  (C2_coordinate_parsing.1 "40.1, -83.2" (401/10) (-416/5)).mp
    (by with_unfolding_all decide)

/-- C3: on every successful load, the capacity columns are exactly the
columns of the table whose lowercased name ends with "capacity (ttpa)",
and every row's `TotalCapacity` is the sum of the present coerced values
of those columns — present when at least one value is present, absent when
all are absent or when no capacity column exists. -/
theorem C3_capacity_aggregation {env : Env} {L : Loaded}
    (h : load_data env = .ok L) :
    (∀ c, c ∈ L.capCols ↔ c ∈ L.cols ∧ lowerEndsWith c "capacity (ttpa)" = true) ∧
    (∀ r ∈ L.rows,
      r.total =
        if L.capCols = [] ∨
            presentCapVals (env.plantData.cols.map strStrip) L.capCols r.cells = []
        then none
        else some (presentCapVals (env.plantData.cols.map strStrip) L.capCols r.cells).sum) := by
  obtain ⟨-, -, coordCol, -, -, -, -, hcap, -⟩ := load_data_ok_elim h
  constructor
  · intro c
    rw [hcap]
    simp [List.mem_filter]
  · intro r hr
    obtain ⟨cc, -, hall⟩ := load_rows_elim h
    obtain ⟨r0, -, la, lo, -, rfl⟩ := hall r hr
    exact totalOfRow_eq _ _ _

/-- C3 witness: on the concrete workbook `envC3`, the genuine capacity
column is kept, the column merely containing "capacity (ttpa)" is not, and
the single row's total is the sum of its present values. -/
theorem C3_witness :
    load_data envC3 = .ok loadedC3 ∧
    ("Capacity (ttpa) note" ∈ loadedC3.capCols ↔
      "Capacity (ttpa) note" ∈ loadedC3.cols ∧
        lowerEndsWith "Capacity (ttpa) note" "capacity (ttpa)" = true) ∧
    loadedC3.capCols = ["Crude steel capacity (TTPA)"] ∧
    loadedC3.rows.map (fun r => r.total) = [some 100] :=
  have h : load_data envC3 = .ok loadedC3 := by with_unfolding_all rfl
  ⟨h, (C3_capacity_aggregation h).1 "Capacity (ttpa) note", rfl,
    by with_unfolding_all decide⟩

/-- C4 counterexample: first, on a concrete table the filter engine's
output is not the claimed subset (the absent-capacity row satisfies the
claimed predicates yet is dropped); second, moving the capacity stage
across a categorical stage changes the result, so the order of filter
dimensions matters. -/
theorem C4_counterexample :
    (applyFilters [] none none none none (some (0, 100))
        [⟨[], 0, 0, some 50⟩, ⟨[], 0, 0, none⟩] ≠
      specFilterRef [] none none none none (some (0, 100))
        [⟨[], 0, 0, some 50⟩, ⟨[], 0, 0, none⟩]) ∧
    (catStage ["Owner"] (some "Owner") (some ["B"])
        (capStage (some (0, 10))
          [⟨[.text "A"], 0, 0, some 5⟩, ⟨[.text "B"], 0, 0, none⟩]) ≠
      capStage (some (0, 10))
        (catStage ["Owner"] (some "Owner") (some ["B"])
          [⟨[.text "A"], 0, 0, some 5⟩, ⟨[.text "B"], 0, 0, none⟩])) := by
  constructor
  · with_unfolding_all decide
  · with_unfolding_all decide

/-- C4 (amended): the filter engine's output is exactly the rows of the
input satisfying the owner and region predicates and — whenever a capacity
range is set and the categorically filtered table still has a row with
present `TotalCapacity` — the inclusive capacity test, which rows with
absent `TotalCapacity` fail; filtering is idempotent; and the two
categorical stages commute with each other (the capacity stage, whose
activation depends on the surviving rows, does not commute with them). -/
theorem C4_filter_engine (cols : List String) (oc rc : Option String)
    (so sr : Option (List String)) (cr : Option (ℤ × ℤ)) (rows : List LRow) :
    (∀ r, r ∈ applyFilters cols oc rc so sr cr rows ↔
      r ∈ rows ∧ catPass cols oc so r = true ∧ catPass cols rc sr r = true ∧
      (∀ lo hi, cr = some (lo, hi) →
        hasPresent (catStage cols rc sr (catStage cols oc so rows)) = true →
        capPass lo hi r = true)) ∧
    applyFilters cols oc rc so sr cr (applyFilters cols oc rc so sr cr rows) =
      applyFilters cols oc rc so sr cr rows ∧
    catStage cols rc sr (catStage cols oc so rows) =
      catStage cols oc so (catStage cols rc sr rows) :=
  ⟨fun r => applyFilters_mem cols oc rc so sr cr rows r,
   applyFilters_idem cols oc rc so sr cr rows,
   catStage_comm cols oc rc so sr rows⟩

/-- C4 witness: on a concrete one-row table with an in-range present
capacity, the row is in the output, as the membership characterization
demands. -/
theorem C4_witness :
    (⟨[], 0, 0, some 50⟩ : LRow) ∈
      applyFilters [] none none none none (some (0, 100))
        [(⟨[], 0, 0, some 50⟩ : LRow)] :=
  ((C4_filter_engine [] none none none none (some (0, 100))
      [⟨[], 0, 0, some 50⟩]).1 ⟨[], 0, 0, some 50⟩).mpr
    ⟨by with_unfolding_all decide, rfl, rfl,
     fun lo hi heq _ => by
       obtain ⟨rfl, rfl⟩ : lo = 0 ∧ hi = 100 := by
         constructor <;> · cases heq; rfl
       with_unfolding_all decide⟩

/-- C5: the loader fails exactly when the file is missing, the sheet is
missing, or no column resolves for the coordinates role; each condition
yields its specific error (the sheet error carrying the available sheet
list); otherwise a table is returned (missing owner / region / capacity
columns are non-fatal), and rows whose coordinates failed to parse are
silently dropped from the result, never reported as errors. -/
theorem C5_load_errors (env : Env) :
    ((∃ e, load_data env = .error e) ↔
      (env.fileExists = false ∨ sheetName ∉ env.sheetNames ∨
        pick (env.plantData.cols.map strStrip) ["coordinates"] = none)) ∧
    (¬(env.fileExists = false ∨ sheetName ∉ env.sheetNames ∨
        pick (env.plantData.cols.map strStrip) ["coordinates"] = none) →
      ∃ L, load_data env = .ok L) ∧
    (env.fileExists = false →
      load_data env = .error (.fileNotFound
        "'dataset_globalsteeltracker.xlsx' not found in this folder.")) ∧
    (env.fileExists = true → sheetName ∉ env.sheetNames →
      load_data env = .error (.sheetNotFound sheetName env.sheetNames)) ∧
    (env.fileExists = true → sheetName ∈ env.sheetNames →
      pick (env.plantData.cols.map strStrip) ["coordinates"] = none →
      load_data env = .error (.requiredColumnMissing
        "Column 'Coordinates' was not found in the 'Plant data' sheet.")) ∧
    (∀ L, load_data env = .ok L →
      ∃ coordCol,
        pick (env.plantData.cols.map strStrip) ["coordinates"] = some coordCol ∧
        L.rows = env.plantData.rows.filterMap (fun r =>
          match parseCoordStr (astypeStr
              (getCell (env.plantData.cols.map strStrip) r coordCol)) with
          | some (la, lo) => some (⟨r, la, lo,
              totalOfRow (env.plantData.cols.map strStrip) L.capCols r⟩ : LRow)
          | none => none)) := by
  refine ⟨load_data_error_iff env, ?_, (load_data_error_shapes env).1,
    (load_data_error_shapes env).2.1, (load_data_error_shapes env).2.2, ?_⟩
  · intro hnone
    rcases hv : load_data env with e | L
    · exact absurd ((load_data_error_iff env).mp ⟨e, hv⟩) hnone
    · exact ⟨L, rfl⟩
  · intro L hL
    obtain ⟨-, -, cc, hp, -, -, -, -, hrows⟩ := load_data_ok_elim hL
    exact ⟨cc, hp, hrows⟩

/-- C5 witness: on a workbook lacking the "Plant data" sheet the loader
fails with the sheet error listing the available sheets. -/
theorem C5_witness :
    load_data envC5 = .error (.sheetNotFound sheetName ["Other sheet"]) :=
  (C5_load_errors envC5).2.2.2.1 rfl (by decide)

set_option maxRecDepth 40000 in
/-- C6 counterexample: the loader accepts `envC6inf` and retains its one
row, whose latitude numeral has exact value `10^309` — above the double
overflow threshold, so Python `float()` of it is `inf` and the retained
row's `Latitude` is not finite, while its `Longitude` is.  This falsifies
the claim that every retained row has finite `Latitude` and `Longitude`:
the row with an infinite coordinate survives `dropna` (infinity is not
NaN) and is returned. -/
theorem C6_counterexample :
    (match load_data envC6inf with
     | .ok L => L.rows.map (fun r => (floatFinite r.lat, floatFinite r.lon))
     | .error _ => []) = [(false, true)] := by
  with_unfolding_all decide

/-- C6 (amended): every retained row's `Latitude` and `Longitude` are
present — the two values of a successful coordinate parse, so never NaN —
and each is finite as a 64-bit float exactly when the magnitude of its
exact parsed decimal value is below the IEEE-754 double overflow
threshold; a matched numeral at or above that threshold converts to an
infinity and its row is still retained. -/
theorem C6_coordinates_present {env : Env} {L : Loaded}
    (h : load_data env = .ok L) :
    ∃ coordCol,
      pick (env.plantData.cols.map strStrip) ["coordinates"] = some coordCol ∧
      ∀ r ∈ L.rows,
        parseCoordStr (astypeStr
            (getCell (env.plantData.cols.map strStrip) r.cells coordCol)) =
          some (r.lat, r.lon) ∧
        (floatFinite r.lat = true ↔ |r.lat| < dblOverflowThreshold) ∧
        (floatFinite r.lon = true ↔ |r.lon| < dblOverflowThreshold) := by
  obtain ⟨cc, hp, hall⟩ := load_rows_elim h
  refine ⟨cc, hp, fun r hr => ?_⟩
  obtain ⟨r0, -, la, lo, hparse, rfl⟩ := hall r hr
  exact ⟨hparse, by simp [floatFinite], by simp [floatFinite]⟩

set_option maxRecDepth 40000 in
/-- C6 witness: on the concrete workbook `envC6` the bad row is dropped,
the kept row's latitude and longitude are the parsed `(-12, 7.25)`, and
its latitude is finite as a float (its magnitude is far below the
overflow threshold). -/
theorem C6_witness :
    load_data envC6 = .ok loadedC6 ∧
    parseCoordStr (astypeStr (getCell (envC6.plantData.cols.map strStrip)
        [Cell.text " -12 , 7.25 ", Cell.text "A"] "Coordinates")) =
      some (-12, 29/4) ∧
    floatFinite (-12 : ℚ) = true := by
  have h : load_data envC6 = .ok loadedC6 := by with_unfolding_all rfl
  obtain ⟨cc, hp, hall⟩ := C6_coordinates_present h
  have hcc : cc = "Coordinates" := by
    have h2 : pick (envC6.plantData.cols.map strStrip) ["coordinates"] =
        some "Coordinates" := by with_unfolding_all decide
    exact Option.some.inj (hp.symm.trans h2)
  have hmem : (⟨[Cell.text " -12 , 7.25 ", Cell.text "A"], -12, 29/4, none⟩ : LRow) ∈
      loadedC6.rows := by with_unfolding_all decide
  have h3 := hall _ hmem
  rw [hcc] at h3
  exact ⟨h, h3.1, h3.2.1.mpr (by with_unfolding_all decide)⟩

/-- C7: the column resolver returns the first column in source order whose
lowercased name contains any candidate substring, and `none` when no
column matches; for the region role a "country/area" column is preferred
and only if none exists does resolution fall back to a column containing
"country" or "region". -/
theorem C7_column_resolution :
    (∀ cols keys c, pick cols keys = some c ↔
      MatchesAny keys c ∧
        ∃ l1 l2, cols = l1 ++ c :: l2 ∧ ∀ x ∈ l1, ¬MatchesAny keys x) ∧
    (∀ cols keys, pick cols keys = none ↔ ∀ c ∈ cols, ¬MatchesAny keys c) ∧
    (∀ (env : Env) (L : Loaded), load_data env = .ok L →
      (∀ c, pick L.cols ["country/area"] = some c → L.regionCol = some c) ∧
      (pick L.cols ["country/area"] = none →
        L.regionCol = pick L.cols ["country", "region"])) := by
  refine ⟨pick_eq_some_iff, pick_eq_none_iff, fun env L h => ?_⟩
  obtain ⟨-, -, cc, -, -, -, hregion, -, -⟩ := load_data_ok_elim h
  constructor
  · intro c hc
    rw [hregion, hc]
  · intro hc
    rw [hregion, hc]

/-- C7 witness: on a concrete column list the resolver returns the first
(and only) owner-matching column, skipping the non-matching one. -/
theorem C7_witness :
    pick ["Plant name", "Owner name"] ["owner"] = some "Owner name" := by
  apply (C7_column_resolution.1 ["Plant name", "Owner name"] ["owner"] "Owner name").mpr
  refine ⟨⟨"owner", by decide, [], (" name").data, by decide⟩,
    ["Plant name"], [], rfl, ?_⟩
  intro x hx
  rw [List.mem_singleton.mp hx, ← matchesAny_iff]
  decide

/-- C8 counterexample: on `envC8` the capacity columns ARE resolved, yet
the single row's `TotalCapacity` is absent (its only capacity cell is
non-numeric), contradicting the claim that absence requires that no
capacity columns were resolved at all. -/
theorem C8_counterexample :
    load_data envC8 = .ok loadedC8 ∧
    loadedC8.capCols = ["Steel capacity (ttpa)"] ∧
    loadedC8.rows.map (fun r => r.total) = [none] :=
  ⟨by with_unfolding_all rfl, rfl, rfl⟩

/-- C8 (amended): on every successful load, a row's `TotalCapacity`, when
present, equals the sum of the present numeric values among the resolved
capacity columns (non-numeric cells excluded, and at least one value
present); and it is absent exactly when no capacity column was resolved OR
all of the row's capacity cells fail numeric coercion. -/
theorem C8_total_capacity {env : Env} {L : Loaded}
    (h : load_data env = .ok L) :
    ∀ r ∈ L.rows,
      (∀ s, r.total = some s →
        s = (presentCapVals (env.plantData.cols.map strStrip) L.capCols r.cells).sum ∧
          presentCapVals (env.plantData.cols.map strStrip) L.capCols r.cells ≠ []) ∧
      (r.total = none ↔ (L.capCols = [] ∨
        presentCapVals (env.plantData.cols.map strStrip) L.capCols r.cells = [])) := by
  intro r hr
  obtain ⟨cc, -, hall⟩ := load_rows_elim h
  obtain ⟨r0, -, la, lo, -, rfl⟩ := hall r hr
  dsimp only
  rw [totalOfRow_eq]
  by_cases hcase : L.capCols = [] ∨
      presentCapVals (env.plantData.cols.map strStrip) L.capCols r0 = []
  · rw [if_pos hcase]
    exact ⟨fun s hs => absurd hs (by simp), by simp [hcase]⟩
  · rw [if_neg hcase]
    refine ⟨fun s hs => ?_, by simp [hcase]⟩
    obtain rfl : (presentCapVals (env.plantData.cols.map strStrip) L.capCols r0).sum = s := by
      cases hs; rfl
    exact ⟨rfl, fun hnil => hcase (Or.inr hnil)⟩

/-- C8 witness: on `envC8`, the row's absence is equivalent to the
disjunction, whose true disjunct is "all capacity cells fail coercion". -/
theorem C8_witness :
    load_data envC8 = .ok loadedC8 ∧
    ((⟨[Cell.text "1, 2", Cell.text "n/a"], 1, 2, none⟩ : LRow).total = none ↔
      (loadedC8.capCols = [] ∨
        presentCapVals (envC8.plantData.cols.map strStrip) loadedC8.capCols
          [Cell.text "1, 2", Cell.text "n/a"] = [])) :=
  have h : load_data envC8 = .ok loadedC8 := by with_unfolding_all rfl
  ⟨h, (C8_total_capacity h _ (by with_unfolding_all decide)).2⟩

/-- C9: an empty owner or region selection behaves as "no filter" — the
filter engine's output is the same as with no selection at all, and the
owner stage with an empty selection passes every row (rather than
excluding all rows as exact set-membership would). -/
theorem C9_empty_selection (cols : List String) (oc rc : Option String)
    (so sr : Option (List String)) (cr : Option (ℤ × ℤ)) (rows : List LRow) :
    applyFilters cols oc rc (some []) sr cr rows =
      applyFilters cols oc rc none sr cr rows ∧
    applyFilters cols oc rc so (some []) cr rows =
      applyFilters cols oc rc so none cr rows ∧
    catStage cols oc (some []) rows = rows := by
  refine ⟨?_, ?_, catStage_someEmpty cols oc rows⟩
  · simp only [applyFilters, catStage_someEmpty, catStage_none]
  · simp only [applyFilters, catStage_someEmpty, catStage_none]

/-- C9 witness: with a resolved owner column and an empty selection, a row
that matches no owner value still passes. -/
theorem C9_witness :
    applyFilters ["Owner"] (some "Owner") none (some []) none none
        [⟨[Cell.text "A"], 0, 0, none⟩] =
      applyFilters ["Owner"] (some "Owner") none none none none
        [⟨[Cell.text "A"], 0, 0, none⟩] :=
  (C9_empty_selection ["Owner"] (some "Owner") none none none none
      [⟨[Cell.text "A"], 0, 0, none⟩]).1

/-- C10: the offered slider bounds are the truncations toward zero of the
extreme present `TotalCapacity` values, and under the default full range
any row whose present value exceeds `int(max)` (fractional part above the
truncation) or lies below `int(min)` is excluded by the capacity filter
even though no narrowing was requested. -/
theorem C10_slider_truncation {rows : List LRow} {lo hi : ℤ}
    (h : sliderRange rows = some (lo, hi)) :
    (∃ qmin qmax,
      qmin ∈ rows.filterMap (fun r => r.total) ∧
      qmax ∈ rows.filterMap (fun r => r.total) ∧
      (∀ q ∈ rows.filterMap (fun r => r.total), qmin ≤ q ∧ q ≤ qmax) ∧
      lo = pyInt qmin ∧ hi = pyInt qmax) ∧
    ∀ r ∈ rows, ∀ q, r.total = some q → ((hi : ℚ) < q ∨ q < (lo : ℚ)) →
      r ∉ capStage (some (lo, hi)) rows := by
  refine ⟨sliderRange_some_elim h, ?_⟩
  intro r hr q hq hout hmem
  have hp : hasPresent rows = true := by
    simp only [hasPresent, List.any_eq_true]
    exact ⟨r, hr, by simp [hq]⟩
  have h2 := (capStage_mem.mp hmem).2 lo hi rfl hp
  obtain ⟨q', hq', h1, h2'⟩ := (capPass_iff lo hi r).mp h2
  rw [hq] at hq'
  obtain rfl : q = q' := by cases hq'; rfl
  rcases hout with hout | hout
  · exact absurd h2' (not_le.mpr hout)
  · exact absurd h1 (not_le.mpr hout)

/-- C10 witness: a single row of capacity `10.5` gives slider bounds
`(10, 10)`, and the row itself then fails the default-range capacity
filter. -/
theorem C10_witness :
    sliderRange rowsC10 = some (10, 10) ∧
    (⟨[], 0, 0, some (21/2 : ℚ)⟩ : LRow) ∉ capStage (some (10, 10)) rowsC10 :=
  have hs : sliderRange rowsC10 = some (10, 10) := by with_unfolding_all rfl
  ⟨hs, (C10_slider_truncation hs).2 _ (by with_unfolding_all decide) (21/2 : ℚ) rfl
    (Or.inl (by with_unfolding_all decide))⟩

end Dashboard
